import Mathlib

/-!
Verification of the core game logic of the "Signpost" arrow-grid puzzle.

The development shallowly embeds the Python sources:
* `GraphNode`, `PuzzleGraph` — the graph representation (labels are `Char`,
  node data and adjacency are association lists mirroring the Python dicts);
* `GameState` with `is_legal_move`, `is_correct_move`, `make_move_with`
  (the mutable node flags `visited` / `visit_order` from the Python
  `GraphNode` objects are carried in the state as an association list);
* the two winner rules `determine_winner` (realisedVersion / sample /
  uiUpgrade) and `determine_winner_dnc` (the d&c variant);
* the greedy CPU (`GreedyCPU.get_best_move`, realisedVersion) and the
  depth-limited CPU (`dncCPU.get_best_move`, d&c variant).

Python's `random.choice` fallback is modelled by returning `none`
(a nondeterministic choice outside the deterministic embedding).
-/

namespace Signpost

/-- Mirror of Python `GraphNode` (src/realisedVersion.py): the immutable part
of a grid cell. The mutable `visited` / `visit_order` fields live in
`GameState` below, since the embedding is purely functional. -/
structure GraphNode where
  row : Nat
  col : Nat
  arrow_direction : Char
deriving DecidableEq, Repr

/-- Mirror of Python `PuzzleGraph`: node dictionary, adjacency-list
dictionary and the designated solution path. Dictionaries are association
lists; all keys inserted by the program are distinct. -/
structure PuzzleGraph where
  nodes : List (Char × GraphNode)
  adjacency_list : List (Char × List Char)
  solution_path : List Char
deriving DecidableEq, Repr

def PuzzleGraph.empty : PuzzleGraph :=
  { nodes := [], adjacency_list := [], solution_path := [] }

/-- Mirror of `PuzzleGraph.add_node`. -/
def PuzzleGraph.add_node (g : PuzzleGraph) (label : Char) (row col : Nat)
    (arrow : Char) : PuzzleGraph :=
  { g with
    nodes := g.nodes ++ [(label, ⟨row, col, arrow⟩)],
    adjacency_list := g.adjacency_list ++ [(label, [])] }

/-- Mirror of `PuzzleGraph.add_edge`: append `to_label` to the neighbour list
of `from_label` when that key is present, otherwise do nothing. -/
def PuzzleGraph.add_edge (g : PuzzleGraph) (from_label to_label : Char) :
    PuzzleGraph :=
  { g with
    adjacency_list := g.adjacency_list.map
      (fun p => if p.1 = from_label then (p.1, p.2 ++ [to_label]) else p) }

/-- Mirror of `PuzzleGraph.get_neighbors`: `dict.get(label, [])`. -/
def PuzzleGraph.get_neighbors (g : PuzzleGraph) (label : Char) : List Char :=
  (g.adjacency_list.lookup label).getD []

/-- The fixed 4×4 grid of `create_fixed_puzzle`
(label, row, col, arrow glyph). -/
def grid_config : List (Char × Nat × Nat × Char) :=
  [('A', 0, 0, '↘'), ('B', 0, 1, '↘'), ('C', 0, 2, '↙'), ('D', 0, 3, '←'),
   ('E', 1, 0, '↗'), ('F', 1, 1, '→'), ('G', 1, 2, '←'), ('H', 1, 3, '←'),
   ('I', 2, 0, '→'), ('J', 2, 1, '↙'), ('K', 2, 2, '↖'), ('L', 2, 3, '↑'),
   ('M', 3, 0, '→'), ('N', 3, 1, '→'), ('O', 3, 2, '→'), ('P', 3, 3, '★')]

/-- The fixed directed edge list of `create_fixed_puzzle`. -/
def puzzle_edges : List (Char × Char) :=
  [('A', 'E'), ('A', 'K'),
   ('K', 'G'), ('K', 'F'),
   ('F', 'G'), ('F', 'H'),
   ('H', 'G'),
   ('G', 'F'), ('G', 'E'),
   ('E', 'B'), ('E', 'A'),
   ('B', 'F'), ('B', 'L'),
   ('L', 'H'), ('L', 'D'),
   ('D', 'C'),
   ('C', 'G'), ('C', 'I'),
   ('I', 'J'),
   ('J', 'N'), ('J', 'M'),
   ('M', 'N'),
   ('N', 'O'),
   ('O', 'P')]

/-- The designated solution path of `create_fixed_puzzle`. -/
def solution : List Char :=
  ['A', 'K', 'F', 'H', 'G', 'E', 'B', 'L', 'D', 'C', 'I', 'J', 'M', 'N', 'O', 'P']

/-- Mirror of `PuzzleGameGUI.create_fixed_puzzle`: add all nodes, add all
edges, set the solution path. -/
def create_fixed_puzzle : PuzzleGraph :=
  let g := grid_config.foldl
    (fun g q => g.add_node q.1 q.2.1 q.2.2.1 q.2.2.2) PuzzleGraph.empty
  let g := puzzle_edges.foldl (fun g e => g.add_edge e.1 e.2) g
  { g with solution_path := solution }

/-- The fixed puzzle graph used by every variant of the program. -/
def signpost : PuzzleGraph := create_fixed_puzzle

inductive Player where
  | Human : Player
  | CPU : Player
deriving DecidableEq, Repr

inductive Winner where
  | Human : Winner
  | CPU : Winner
  | Draw : Winner
deriving DecidableEq, Repr

/-- Mirror of Python `GameState` (src/realisedVersion.py, src/d&c.py).
`visited` is the set of labels whose `GraphNode.visited` flag is `True`;
`visit_order` is an association list giving each visited label its
`visit_order` number (a later binding shadows an earlier one, like dict
assignment). `cpu_illegal_history` models the Python set of pairs. -/
structure GameState where
  current_position : Char
  current_turn : Player
  visit_count : Nat
  human_correct_moves : Nat
  human_illegal_moves : Nat
  cpu_correct_moves : Nat
  cpu_illegal_moves : Nat
  cpu_illegal_history : List (Char × Char)
  visited : List Char
  visit_order : List (Char × Nat)
  game_over : Bool
  winner : Option Winner
deriving DecidableEq, Repr

/-- Mirror of `GameState.__init__`: start at `'A'`, human to move, `'A'`
already visited with order 1. -/
def GameState.init : GameState :=
  { current_position := 'A'
    current_turn := Player.Human
    visit_count := 1
    human_correct_moves := 0
    human_illegal_moves := 0
    cpu_correct_moves := 0
    cpu_illegal_moves := 0
    cpu_illegal_history := []
    visited := ['A']
    visit_order := [('A', 1)]
    game_over := false
    winner := none }

/-- The `visited` flag of the cell `label` (Python `graph.nodes[l].visited`). -/
def GameState.isVisited (s : GameState) (label : Char) : Bool :=
  decide (label ∈ s.visited)

/-- The `visit_order` field of the cell `label`
(Python `graph.nodes[l].visit_order`, `None` encoded as `none`). -/
def GameState.visitOrder (s : GameState) (label : Char) : Option Nat :=
  s.visit_order.lookup label

/-- Mirror of `GameState.is_legal_move`: target must be an outgoing
neighbour of the current position and not yet visited. -/
def GameState.is_legal_move (s : GameState) (g : PuzzleGraph)
    (target : Char) : Bool :=
  if target ∉ g.get_neighbors s.current_position then false
  else if s.isVisited target then false
  else true

/-- The element of `path` immediately after the first occurrence of `pos`
(Python `path[path.index(pos) + 1]`, with `ValueError`/`IndexError`
yielding `none`). -/
def next_after : List Char → Char → Option Char
  | [], _ => none
  | x :: rest, pos => if x = pos then rest.head? else next_after rest pos

/-- Mirror of `GameState.is_correct_move`: target is the label following
the current position in the solution path; any lookup failure is caught
and returns `False`. -/
def GameState.is_correct_move (s : GameState) (g : PuzzleGraph)
    (target : Char) : Bool :=
  match next_after g.solution_path s.current_position with
  | some nxt => decide (target = nxt)
  | none => false

/-- Mirror of `GameState.switch_turn`. -/
def GameState.switch_turn (s : GameState) : GameState :=
  { s with current_turn :=
      if s.current_turn = Player.Human then Player.CPU else Player.Human }

/-- Mirror of `GameState.determine_winner` in src/realisedVersion.py,
src/sample.py and src/uiUpgrade.py: compare illegal-move counts only. -/
def GameState.determine_winner (s : GameState) : Winner :=
  if s.human_illegal_moves < s.cpu_illegal_moves then Winner.Human
  else if s.cpu_illegal_moves < s.human_illegal_moves then Winner.CPU
  else Winner.Draw

/-- Mirror of `GameState.determine_winner` in src/d&c.py: illegal counts
first, then correct-move counts as tie-break. -/
def GameState.determine_winner_dnc (s : GameState) : Winner :=
  if s.human_illegal_moves < s.cpu_illegal_moves then Winner.Human
  else if s.cpu_illegal_moves < s.human_illegal_moves then Winner.CPU
  else if s.human_correct_moves > s.cpu_correct_moves then Winner.Human
  else if s.cpu_correct_moves > s.human_correct_moves then Winner.CPU
  else Winner.Draw

/-- Python `set.add`: membership-preserving insertion. -/
def addPair (hist : List (Char × Char)) (p : Char × Char) :
    List (Char × Char) :=
  if p ∈ hist then hist else p :: hist

/-- Mirror of `GameState.make_move`, parameterised by the winner rule so
that it covers both the realisedVersion variant (`determine_winner`) and
the d&c variant (`determine_winner_dnc`). Returns the new state together
with the Python return pair `(success, is_correct)`. -/
def GameState.make_move_with (rule : GameState → Winner) (g : PuzzleGraph)
    (s : GameState) (target : Char) : GameState × Bool × Bool :=
  if s.game_over then (s, false, false)
  else
    let legal := s.is_legal_move g target
    let correct := s.is_correct_move g target
    if !legal || !correct then
      let s1 :=
        if s.current_turn = Player.Human then
          { s with human_illegal_moves := s.human_illegal_moves + 1 }
        else
          { s with
            cpu_illegal_moves := s.cpu_illegal_moves + 1,
            cpu_illegal_history :=
              addPair s.cpu_illegal_history (s.current_position, target) }
      (s1.switch_turn, false, false)
    else
      let s1 :=
        { s with
          visit_count := s.visit_count + 1,
          visited := target :: s.visited,
          visit_order := (target, s.visit_count + 1) :: s.visit_order,
          current_position := target }
      let s2 :=
        if s.current_turn = Player.Human then
          { s1 with human_correct_moves := s1.human_correct_moves + 1 }
        else
          { s1 with cpu_correct_moves := s1.cpu_correct_moves + 1 }
      let s3 :=
        if target = 'P' then
          { s2 with game_over := true, winner := some (rule s2) }
        else s2
      (s3.switch_turn, true, true)

/-- `GameState.make_move` of src/realisedVersion.py (and src/sample.py,
src/uiUpgrade.py): uses the illegal-count-only winner rule. -/
def GameState.make_move (g : PuzzleGraph) (s : GameState) (target : Char) :
    GameState × Bool × Bool :=
  GameState.make_move_with GameState.determine_winner g s target

/-- `GameState.make_move` of src/d&c.py: uses the tie-breaking winner rule. -/
def GameState.make_move_dnc (g : PuzzleGraph) (s : GameState)
    (target : Char) : GameState × Bool × Bool :=
  GameState.make_move_with GameState.determine_winner_dnc g s target

/-!  Exception-aware variant of the move logic, for the error-handling
claim. Python dictionary indexing `graph.nodes[target]` raises `KeyError`
for a key outside the dictionary; `lookupNode` makes that failure explicit
and `make_move_checked` propagates it exactly where the Python code
performs such an access. -/

/-- Python `graph.nodes[label]`: `KeyError` as `Except.error`. -/
def lookupNode (g : PuzzleGraph) (label : Char) : Except String GraphNode :=
  match g.nodes.lookup label with
  | some n => Except.ok n
  | none => Except.error "KeyError"

/-- `GameState.is_legal_move` with the `graph.nodes[target].visited` access
made explicit: the access only happens after the neighbour test passes. -/
def GameState.is_legal_move_checked (s : GameState) (g : PuzzleGraph)
    (target : Char) : Except String Bool :=
  if target ∉ g.get_neighbors s.current_position then Except.ok false
  else do
    let _ ← lookupNode g target
    if s.isVisited target then return false
    else return true

/-- `GameState.make_move` with every potentially-raising dictionary access
made explicit (`is_correct_move` is wrapped in `try/except` in the source
and therefore never raises). -/
def GameState.make_move_checked (rule : GameState → Winner) (g : PuzzleGraph)
    (s : GameState) (target : Char) :
    Except String (GameState × Bool × Bool) :=
  if s.game_over then Except.ok (s, false, false)
  else do
    let legal ← s.is_legal_move_checked g target
    let correct := s.is_correct_move g target
    if !legal || !correct then
      let s1 :=
        if s.current_turn = Player.Human then
          { s with human_illegal_moves := s.human_illegal_moves + 1 }
        else
          { s with
            cpu_illegal_moves := s.cpu_illegal_moves + 1,
            cpu_illegal_history :=
              addPair s.cpu_illegal_history (s.current_position, target) }
      return (s1.switch_turn, false, false)
    else
      let _ ← lookupNode g target
      let s1 :=
        { s with
          visit_count := s.visit_count + 1,
          visited := target :: s.visited,
          visit_order := (target, s.visit_count + 1) :: s.visit_order,
          current_position := target }
      let s2 :=
        if s.current_turn = Player.Human then
          { s1 with human_correct_moves := s1.human_correct_moves + 1 }
        else
          { s1 with cpu_correct_moves := s1.cpu_correct_moves + 1 }
      let s3 :=
        if target = 'P' then
          { s2 with game_over := true, winner := some (rule s2) }
        else s2
      return (s3.switch_turn, true, true)

/-!  CPU players. -/

/-- Mirror of `GreedyCPU.calculate_distance_to_goal` /
`dncCPU.distance_to_goal`: Manhattan distance from the cell `label` to the
goal cell `'P'`. Python raises `KeyError` outside the node dictionary;
every call site of the program passes node labels, so the `getD` default
is never consulted there. -/
def calculate_distance_to_goal (g : PuzzleGraph) (label : Char) : Nat :=
  let node := (g.nodes.lookup label).getD ⟨0, 0, ' '⟩
  let goal := (g.nodes.lookup 'P').getD ⟨0, 0, ' '⟩
  ((node.row : Int) - (goal.row : Int)).natAbs +
    ((node.col : Int) - (goal.col : Int)).natAbs

/-- Python `min(l, key=f)`: the first element of `l` attaining the minimal
key (replacement only on strictly smaller key). `none` on the empty list
(Python raises there; the caller guards against it). -/
def argmin_by (f : Char → Nat) : List Char → Option Char
  | [] => none
  | x :: xs => some (xs.foldl (fun best y => if f y < f best then y else best) x)

/-- The candidate chain of `GreedyCPU.get_best_move`
(src/realisedVersion.py): unvisited neighbours not in the CPU's illegal
history, else unvisited neighbours, else any neighbour. -/
def GreedyCPU.candidate_moves (g : PuzzleGraph) (s : GameState) : List Char :=
  let current_pos := s.current_position
  let neighbors := g.get_neighbors current_pos
  let history := s.cpu_illegal_history
  let primary_moves := neighbors.filter
    (fun n => !(s.isVisited n) && !(decide ((current_pos, n) ∈ history)))
  let fallback_moves := neighbors.filter (fun n => !(s.isVisited n))
  let candidate_moves :=
    if primary_moves.isEmpty then fallback_moves else primary_moves
  if candidate_moves.isEmpty then neighbors else candidate_moves

/-- Mirror of `GreedyCPU.get_best_move` (src/realisedVersion.py): the
candidate closest to the goal; `none` models the `random.choice` branch
taken when there are no neighbours at all. -/
def GreedyCPU.get_best_move (g : PuzzleGraph) (s : GameState) : Option Char :=
  let candidate_moves := GreedyCPU.candidate_moves g s
  if candidate_moves.isEmpty then none
  else argmin_by (calculate_distance_to_goal g) candidate_moves

/-- Mirror of `dncCPU.build_candidates` (src/d&c.py). -/
def dncCPU.build_candidates (g : PuzzleGraph) (current : Char)
    (visited_set : List Char) (illegal_history : List (Char × Char)) :
    List Char :=
  let neighbors := g.get_neighbors current
  let primary := neighbors.filter
    (fun n => !(decide (n ∈ visited_set)) &&
      !(decide ((current, n) ∈ illegal_history)))
  let fallback := neighbors.filter (fun n => !(decide (n ∈ visited_set)))
  if primary.isEmpty then
    (if fallback.isEmpty then neighbors else fallback)
  else primary

/-- Mirror of `dncCPU.score_state` (src/d&c.py): `10000` at the goal,
otherwise the negated Manhattan distance to the goal. -/
def dncCPU.score_state (g : PuzzleGraph) (position : Char) : Int :=
  if position = 'P' then 10000
  else -(calculate_distance_to_goal g position : Int)

/-- Mirror of `dncCPU.evaluate_best_score` (src/d&c.py): depth-limited
maximisation over candidate moves with a simulated visited set; `-10^9`
is the source's sentinel for "everything was blocked". -/
def dncCPU.evaluate_best_score (g : PuzzleGraph) :
    Nat → Char → List Char → List (Char × Char) → Int
  | 0, current, _, _ => dncCPU.score_state g current
  | depth + 1, current, visited_set, illegal_history =>
    if current = 'P' then dncCPU.score_state g current
    else
      let candidates := dncCPU.build_candidates g current visited_set illegal_history
      if candidates.isEmpty then dncCPU.score_state g current
      else
        let best := candidates.foldl
          (fun b nxt =>
            if decide (nxt ∈ visited_set) then b
            else
              let sub_score := dncCPU.evaluate_best_score g depth nxt
                (nxt :: visited_set) illegal_history
              if sub_score > b then sub_score else b)
          (-(1000000000 : Int))
        if best = -(1000000000 : Int) then dncCPU.score_state g current
        else best

/-- The visited set computed at the top of `dncCPU.get_best_move`:
`{lbl for lbl, node in graph.nodes.items() if node.visited}`. -/
def dncCPU.real_visited_set (g : PuzzleGraph) (s : GameState) : List Char :=
  (g.nodes.map Prod.fst).filter (fun lbl => s.isVisited lbl)

/-- Mirror of `dncCPU.get_best_move` (src/d&c.py): evaluate each unvisited
candidate with `evaluate_best_score` at `depth - 1` and keep the first one
whose score strictly improves on the best so far; `none` models the
`random.choice` last resort. -/
def dncCPU.get_best_move (g : PuzzleGraph) (s : GameState) (depth : Nat) :
    Option Char :=
  let current := s.current_position
  let illegal_history := s.cpu_illegal_history
  let visited_set := dncCPU.real_visited_set g s
  let candidates := dncCPU.build_candidates g current visited_set illegal_history
  match candidates with
  | [] => none
  | c0 :: _ =>
    let r := candidates.foldl
      (fun (acc : Char × Int) move =>
        if decide (move ∈ visited_set) then acc
        else
          let sc := dncCPU.evaluate_best_score g (depth - 1) move
            (move :: visited_set) illegal_history
          if sc > acc.2 then (move, sc) else acc)
      (c0, -(1000000000 : Int))
    some r.1

/-- The depth the d&c GUI passes to `dncCPU` (`depth=6`). -/
def dncCPU.default_depth : Nat := 6

/-!  Reachability of match states: the initial state, closed under move
attempts with arbitrary targets (for the realisedVersion game). -/

inductive Reachable : GameState → Prop where
  | init : Reachable GameState.init
  | step (s : GameState) (t : Char) : Reachable s →
      Reachable (GameState.make_move signpost s t).1

/-!  Claim-side ("spec-worded") selection functions, used to state what the
CPU players are claimed to return: the first element attaining the maximal
or minimal value of a scoring function. -/

def list_max_int : List Int → Option Int
  | [] => none
  | x :: xs =>
    match list_max_int xs with
    | none => some x
    | some m => some (max x m)

def list_min_nat : List Nat → Option Nat
  | [] => none
  | x :: xs =>
    match list_min_nat xs with
    | none => some x
    | some m => some (min x m)

/-- The first element of `l` whose `f`-value is maximal among `l`
(the spec's "first candidate move whose best attainable score is maximal"). -/
def first_max_by (f : Char → Int) (l : List Char) : Option Char :=
  match list_max_int (l.map f) with
  | none => none
  | some m => l.find? (fun c => decide (f c = m))

/-- The first element of `l` whose `f`-value is minimal among `l`
(the spec's "the one with smallest Manhattan distance"). -/
def first_min_by (f : Char → Nat) (l : List Char) : Option Char :=
  match list_min_nat (l.map f) with
  | none => none
  | some m => l.find? (fun c => decide (f c = m))

/-- The state after an unsuccessful move attempt, before the turn switch. -/
def failUpdate (s : GameState) (target : Char) : GameState :=
  if s.current_turn = Player.Human then
    { s with human_illegal_moves := s.human_illegal_moves + 1 }
  else
    { s with
      cpu_illegal_moves := s.cpu_illegal_moves + 1,
      cpu_illegal_history :=
        addPair s.cpu_illegal_history (s.current_position, target) }

/-- The state after a successful move, before the turn switch. -/
def succUpdate (rule : GameState → Winner) (s : GameState) (target : Char) :
    GameState :=
  let s1 :=
    { s with
      visit_count := s.visit_count + 1,
      visited := target :: s.visited,
      visit_order := (target, s.visit_count + 1) :: s.visit_order,
      current_position := target }
  let s2 :=
    if s.current_turn = Player.Human then
      { s1 with human_correct_moves := s1.human_correct_moves + 1 }
    else
      { s1 with cpu_correct_moves := s1.cpu_correct_moves + 1 }
  if target = 'P' then
    { s2 with game_over := true, winner := some (rule s2) }
  else s2

/-!  Basic helper lemmas. -/

theorem lookup_mem {β : Type} (k : Char) (v : β) :
    ∀ l : List (Char × β), l.lookup k = some v → (k, v) ∈ l := by
  intro l
  induction l with
  | nil => intro h; simp [List.lookup] at h
  | cons p rest ih =>
    intro h
    obtain ⟨k', v'⟩ := p
    by_cases hk : k = k'
    · subst hk
      simp [List.lookup] at h
      subst h
      exact List.mem_cons_self _ _
    · have hne : (k == k') = false := beq_eq_false_iff_ne.mpr hk
      simp only [List.lookup, hne] at h
      exact List.mem_cons_of_mem _ (ih h)

theorem find?_cons_pos (p : Char → Bool) (a : Char) (l : List Char)
    (h : p a = true) : List.find? p (a :: l) = some a := by
  simp [List.find?, h]

theorem find?_cons_neg (p : Char → Bool) (a : Char) (l : List Char)
    (h : p a = false) : List.find? p (a :: l) = List.find? p l := by
  simp [List.find?, h]

theorem first_min_by_eq (f : Char → Nat) (l : List Char) (m : Nat)
    (h : list_min_nat (l.map f) = some m) :
    first_min_by f l = l.find? (fun c => decide (f c = m)) := by
  unfold first_min_by
  rw [h]

theorem list_min_nat_eq_none :
    ∀ l : List Nat, list_min_nat l = none ↔ l = [] := by
  intro l
  cases l with
  | nil => simp [list_min_nat]
  | cons a l =>
    simp only [list_min_nat]
    cases list_min_nat l <;> simp

theorem list_min_nat_le : ∀ (l : List Nat) (m : Nat),
    list_min_nat l = some m → ∀ x ∈ l, m ≤ x := by
  intro l
  induction l with
  | nil => intro m h; simp [list_min_nat] at h
  | cons a l ih =>
    intro m h x hx
    rw [list_min_nat] at h
    cases hl : list_min_nat l with
    | none =>
      rw [hl] at h
      simp only [Option.some.injEq] at h
      subst h
      have hnil : l = [] := (list_min_nat_eq_none l).mp hl
      subst hnil
      simp only [List.mem_singleton] at hx
      subst hx
      exact le_refl _
    | some ml =>
      rw [hl] at h
      simp only [Option.some.injEq] at h
      subst h
      rcases List.mem_cons.mp hx with rfl | hx
      · exact Nat.min_le_left _ _
      · exact le_trans (Nat.min_le_right _ _) (ih ml hl x hx)

theorem first_min_by_cons_cons (f : Char → Nat) (x y : Char)
    (ys : List Char) :
    first_min_by f (x :: y :: ys) =
      first_min_by f ((if f y < f x then y else x) :: ys) := by
  cases hw : list_min_nat (ys.map f) with
  | none =>
    have hys : ys = [] :=
      List.map_eq_nil_iff.mp ((list_min_nat_eq_none _).mp hw)
    subst hys
    by_cases hxy : f y < f x
    · rw [if_pos hxy]
      have h1 : list_min_nat ([x, y].map f) = some (f y) := by
        simp only [List.map_cons, List.map_nil, list_min_nat]
        rw [Nat.min_eq_right (le_of_lt hxy)]
      have h2 : list_min_nat ([y].map f) = some (f y) := by
        simp [list_min_nat]
      rw [first_min_by_eq f _ _ h1, first_min_by_eq f _ _ h2]
      rw [find?_cons_neg _ x _
        (by simp only [decide_eq_false_iff_not]; omega)]
    · rw [if_neg hxy]
      have h1 : list_min_nat ([x, y].map f) = some (f x) := by
        simp only [List.map_cons, List.map_nil, list_min_nat]
        rw [Nat.min_eq_left (by omega)]
      have h2 : list_min_nat ([x].map f) = some (f x) := by
        simp [list_min_nat]
      rw [first_min_by_eq f _ _ h1, first_min_by_eq f _ _ h2]
      rw [find?_cons_pos _ x _ (by simp), find?_cons_pos _ x _ (by simp)]
  | some w =>
    have hbig : list_min_nat ((x :: y :: ys).map f) =
        some (min (f x) (min (f y) w)) := by
      simp only [List.map_cons, list_min_nat, hw]
    by_cases hxy : f y < f x
    · rw [if_pos hxy]
      have hz : list_min_nat ((y :: ys).map f) = some (min (f y) w) := by
        simp only [List.map_cons, list_min_nat, hw]
      have hmm : min (f x) (min (f y) w) = min (f y) w := by omega
      rw [first_min_by_eq f _ _ hbig, first_min_by_eq f _ _ hz, hmm]
      rw [find?_cons_neg _ x _
        (by simp only [decide_eq_false_iff_not]; omega)]
    · rw [if_neg hxy]
      have hz : list_min_nat ((x :: ys).map f) = some (min (f x) w) := by
        simp only [List.map_cons, list_min_nat, hw]
      have hmm : min (f x) (min (f y) w) = min (f x) w := by omega
      rw [first_min_by_eq f _ _ hbig, first_min_by_eq f _ _ hz, hmm]
      by_cases hx : f x = min (f x) w
      · rw [find?_cons_pos _ x _ (by simp [← hx]),
          find?_cons_pos _ x _ (by simp [← hx])]
      · rw [find?_cons_neg _ x _
            (by simp only [decide_eq_false_iff_not]; omega),
          find?_cons_neg _ y _
            (by simp only [decide_eq_false_iff_not]; omega),
          find?_cons_neg _ x _
            (by simp only [decide_eq_false_iff_not]; omega)]

theorem foldl_min_first (f : Char → Nat) :
    ∀ (xs : List Char) (x : Char),
      first_min_by f (x :: xs) =
        some (xs.foldl (fun best y => if f y < f best then y else best) x) := by
  intro xs
  induction xs with
  | nil =>
    intro x
    have h1 : list_min_nat ([x].map f) = some (f x) := by simp [list_min_nat]
    rw [first_min_by_eq f _ _ h1, List.foldl_nil,
      find?_cons_pos _ x _ (by simp)]
  | cons y ys ih =>
    intro x
    rw [List.foldl_cons, ← ih (if f y < f x then y else x)]
    exact first_min_by_cons_cons f x y ys

theorem argmin_by_first_min (f : Char → Nat) :
    ∀ l : List Char, argmin_by f l = first_min_by f l := by
  intro l
  cases l with
  | nil => rfl
  | cons x xs =>
    show some _ = first_min_by f (x :: xs)
    rw [foldl_min_first f xs x]

theorem first_min_by_mem (f : Char → Nat) (l : List Char) (m : Char)
    (h : first_min_by f l = some m) : m ∈ l := by
  unfold first_min_by at h
  cases hw : list_min_nat (l.map f) with
  | none => rw [hw] at h; simp at h
  | some w =>
    rw [hw] at h
    exact List.mem_of_find?_eq_some h

theorem first_max_by_eq (f : Char → Int) (l : List Char) (m : Int)
    (h : list_max_int (l.map f) = some m) :
    first_max_by f l = l.find? (fun c => decide (f c = m)) := by
  unfold first_max_by
  rw [h]

theorem list_max_int_eq_none :
    ∀ l : List Int, list_max_int l = none ↔ l = [] := by
  intro l
  cases l with
  | nil => simp [list_max_int]
  | cons a l =>
    simp only [list_max_int]
    cases list_max_int l <;> simp

theorem first_max_by_cons_cons (f : Char → Int) (x y : Char)
    (ys : List Char) :
    first_max_by f (x :: y :: ys) =
      first_max_by f ((if f y > f x then y else x) :: ys) := by
  cases hw : list_max_int (ys.map f) with
  | none =>
    have hys : ys = [] :=
      List.map_eq_nil_iff.mp ((list_max_int_eq_none _).mp hw)
    subst hys
    by_cases hxy : f y > f x
    · rw [if_pos hxy]
      have h1 : list_max_int ([x, y].map f) = some (f y) := by
        simp only [List.map_cons, List.map_nil, list_max_int]
        rw [max_eq_right (le_of_lt hxy)]
      have h2 : list_max_int ([y].map f) = some (f y) := by
        simp [list_max_int]
      rw [first_max_by_eq f _ _ h1, first_max_by_eq f _ _ h2]
      rw [find?_cons_neg _ x _
        (by simp only [decide_eq_false_iff_not]; omega)]
    · rw [if_neg hxy]
      have h1 : list_max_int ([x, y].map f) = some (f x) := by
        simp only [List.map_cons, List.map_nil, list_max_int]
        rw [max_eq_left (by omega)]
      have h2 : list_max_int ([x].map f) = some (f x) := by
        simp [list_max_int]
      rw [first_max_by_eq f _ _ h1, first_max_by_eq f _ _ h2]
      rw [find?_cons_pos _ x _ (by simp), find?_cons_pos _ x _ (by simp)]
  | some w =>
    have hbig : list_max_int ((x :: y :: ys).map f) =
        some (max (f x) (max (f y) w)) := by
      simp only [List.map_cons, list_max_int, hw]
    by_cases hxy : f y > f x
    · rw [if_pos hxy]
      have hz : list_max_int ((y :: ys).map f) = some (max (f y) w) := by
        simp only [List.map_cons, list_max_int, hw]
      have hmm : max (f x) (max (f y) w) = max (f y) w := by omega
      rw [first_max_by_eq f _ _ hbig, first_max_by_eq f _ _ hz, hmm]
      rw [find?_cons_neg _ x _
        (by simp only [decide_eq_false_iff_not]; omega)]
    · rw [if_neg hxy]
      have hz : list_max_int ((x :: ys).map f) = some (max (f x) w) := by
        simp only [List.map_cons, list_max_int, hw]
      have hmm : max (f x) (max (f y) w) = max (f x) w := by omega
      rw [first_max_by_eq f _ _ hbig, first_max_by_eq f _ _ hz, hmm]
      by_cases hx : f x = max (f x) w
      · rw [find?_cons_pos _ x _ (by simp [← hx]),
          find?_cons_pos _ x _ (by simp [← hx])]
      · rw [find?_cons_neg _ x _
            (by simp only [decide_eq_false_iff_not]; omega),
          find?_cons_neg _ y _
            (by simp only [decide_eq_false_iff_not]; omega),
          find?_cons_neg _ x _
            (by simp only [decide_eq_false_iff_not]; omega)]

theorem foldl_max_first_char (f : Char → Int) :
    ∀ (xs : List Char) (x : Char),
      first_max_by f (x :: xs) =
        some (xs.foldl (fun best y => if f y > f best then y else best) x) := by
  intro xs
  induction xs with
  | nil =>
    intro x
    have h1 : list_max_int ([x].map f) = some (f x) := by simp [list_max_int]
    rw [first_max_by_eq f _ _ h1, List.foldl_nil,
      find?_cons_pos _ x _ (by simp)]
  | cons y ys ih =>
    intro x
    rw [List.foldl_cons, ← ih (if f y > f x then y else x)]
    exact first_max_by_cons_cons f x y ys

theorem foldl_pair_fst (f : Char → Int) :
    ∀ (xs : List Char) (b : Char),
      xs.foldl (fun acc c => if f c > acc.2 then (c, f c) else acc) (b, f b) =
        (xs.foldl (fun best y => if f y > f best then y else best) b,
         f (xs.foldl (fun best y => if f y > f best then y else best) b)) := by
  intro xs
  induction xs with
  | nil => intro b; rfl
  | cons y ys ih =>
    intro b
    rw [List.foldl_cons, List.foldl_cons]
    by_cases h : f y > f b
    · rw [if_pos h, if_pos h]
      exact ih y
    · rw [if_neg h, if_neg h]
      exact ih b

theorem foldl_congr_on {α β : Type} (g h : β → α → β) (l : List α) :
    (∀ a ∈ l, ∀ b, g b a = h b a) →
    ∀ init : β, l.foldl g init = l.foldl h init := by
  induction l with
  | nil => intro _ init; rfl
  | cons a l ih =>
    intro H init
    rw [List.foldl_cons, List.foldl_cons, H a (List.mem_cons_self a l) init]
    exact ih (fun a ha b => H a (List.mem_cons_of_mem _ ha) b) _

theorem foldl_cases (g : Char → Int) (step : Int → Char → Int)
    (hstep : ∀ b n, step b n = b ∨ step b n = g n) :
    ∀ (l : List Char) (b : Int),
      l.foldl step b = b ∨ ∃ n ∈ l, l.foldl step b = g n := by
  intro l
  induction l with
  | nil => intro b; exact Or.inl rfl
  | cons a l ih =>
    intro b
    rw [List.foldl_cons]
    rcases ih (step b a) with h | ⟨n, hn, he⟩
    · rw [h]
      rcases hstep b a with h2 | h2
      · exact Or.inl h2
      · exact Or.inr ⟨a, List.mem_cons_self a l, h2⟩
    · exact Or.inr ⟨n, List.mem_cons_of_mem _ hn, he⟩

theorem make_move_of_game_over (rule : GameState → Winner) (g : PuzzleGraph)
    (s : GameState) (t : Char) (h : s.game_over = true) :
    GameState.make_move_with rule g s t = (s, false, false) := by
  simp [GameState.make_move_with, h]

theorem make_move_of_fail (rule : GameState → Winner) (g : PuzzleGraph)
    (s : GameState) (t : Char) (h : s.game_over = false)
    (hf : s.is_legal_move g t = false ∨ s.is_correct_move g t = false) :
    GameState.make_move_with rule g s t =
      ((failUpdate s t).switch_turn, false, false) := by
  have hcond : (!s.is_legal_move g t || !s.is_correct_move g t) = true := by
    rcases hf with hf | hf <;> simp [hf]
  simp only [GameState.make_move_with, h, Bool.false_eq_true, if_false, hcond,
    if_true, failUpdate]

theorem make_move_of_succ (rule : GameState → Winner) (g : PuzzleGraph)
    (s : GameState) (t : Char) (h : s.game_over = false)
    (hl : s.is_legal_move g t = true) (hc : s.is_correct_move g t = true) :
    GameState.make_move_with rule g s t =
      ((succUpdate rule s t).switch_turn, true, true) := by
  simp only [GameState.make_move_with, h, Bool.false_eq_true, if_false, hl, hc,
    Bool.not_true, Bool.or_self, succUpdate]

theorem is_legal_move_iff (s : GameState) (g : PuzzleGraph) (t : Char) :
    s.is_legal_move g t = true ↔
      t ∈ g.get_neighbors s.current_position ∧ s.isVisited t = false := by
  unfold GameState.is_legal_move
  split_ifs with h1 h2 <;> simp_all

theorem is_correct_move_iff (s : GameState) (g : PuzzleGraph) (t : Char) :
    s.is_correct_move g t = true ↔
      next_after g.solution_path s.current_position = some t := by
  unfold GameState.is_correct_move
  cases h : next_after g.solution_path s.current_position with
  | none => simp
  | some nxt => simp [eq_comm]

theorem failUpdate_fields (s : GameState) (t : Char) :
    ∀ u : GameState, u = (failUpdate s t).switch_turn →
    (u.visited = s.visited ∧ u.visit_order = s.visit_order ∧
     u.visit_count = s.visit_count ∧
     u.current_position = s.current_position ∧
     u.game_over = s.game_over ∧ u.winner = s.winner ∧
     u.human_correct_moves = s.human_correct_moves ∧
     u.cpu_correct_moves = s.cpu_correct_moves) := by
  intro u hu
  subst hu
  simp only [failUpdate, GameState.switch_turn]
  split_ifs <;> simp

theorem succUpdate_fields (rule : GameState → Winner) (s : GameState)
    (t : Char) :
    ∀ u : GameState, u = (succUpdate rule s t).switch_turn →
    (u.visited = t :: s.visited ∧
     u.visit_order = (t, s.visit_count + 1) :: s.visit_order ∧
     u.visit_count = s.visit_count + 1 ∧
     u.current_position = t ∧
     u.game_over = (if t = 'P' then true else s.game_over) ∧
     u.winner.isSome = (if t = 'P' then true else s.winner.isSome) ∧
     u.human_illegal_moves = s.human_illegal_moves ∧
     u.cpu_illegal_moves = s.cpu_illegal_moves) := by
  intro u hu
  subst hu
  simp only [succUpdate, GameState.switch_turn]
  split_ifs <;> simp

theorem success_inv (rule : GameState → Winner) (g : PuzzleGraph)
    (s : GameState) (t : Char)
    (h : (GameState.make_move_with rule g s t).2.1 = true) :
    s.game_over = false ∧ s.is_legal_move g t = true ∧
      s.is_correct_move g t = true := by
  by_cases hgo : s.game_over = true
  · rw [make_move_of_game_over _ _ _ _ hgo] at h
    simp at h
  · have hgo' : s.game_over = false := by simpa using hgo
    cases hl : s.is_legal_move g t with
    | false =>
      rw [make_move_of_fail _ _ _ _ hgo' (Or.inl hl)] at h
      simp at h
    | true =>
      cases hc : s.is_correct_move g t with
      | false =>
        rw [make_move_of_fail _ _ _ _ hgo' (Or.inr hc)] at h
        simp at h
      | true => exact ⟨hgo', rfl, rfl⟩

/-- Every neighbour list in the fixed adjacency list contains only labels
of the node dictionary. -/
theorem signpost_adjacency_wf :
    ∀ p ∈ signpost.adjacency_list, ∀ n ∈ p.2,
      (signpost.nodes.lookup n).isSome = true := by decide

/-- Every node of the fixed puzzle sits inside the 4×4 grid. -/
theorem signpost_node_bounds :
    ∀ p ∈ signpost.nodes, p.2.row ≤ 3 ∧ p.2.col ≤ 3 := by decide

theorem signpost_goal_lookup :
    signpost.nodes.lookup 'P' = some ⟨3, 3, '★'⟩ := by decide

theorem mem_neighbors_lookup {c n : Char}
    (h : n ∈ signpost.get_neighbors c) :
    (signpost.nodes.lookup n).isSome = true := by
  unfold PuzzleGraph.get_neighbors at h
  cases hl : signpost.adjacency_list.lookup c with
  | none => rw [hl] at h; simp at h
  | some ns =>
    rw [hl] at h
    simp only [Option.getD_some] at h
    exact signpost_adjacency_wf (c, ns) (lookup_mem c ns _ hl) n h

theorem reachable_play : ∀ (ts : List Char) (s : GameState), Reachable s →
    Reachable (ts.foldl (fun s t => (GameState.make_move signpost s t).1) s) := by
  intro ts
  induction ts with
  | nil => intro s hs; exact hs
  | cons t ts ih => intro s hs; exact ih _ (Reachable.step s t hs)

/-!  Claim theorems. -/

/-- C1: in a non-terminated game, `make_move t` succeeds iff `t` is an
outgoing neighbour of the current position, `t` is unvisited, and `t` is
the next label after the current position in the solution path; on success
the position becomes `t`, `t` is marked visited and the mover's
correct-move counter increases by exactly 1; any `t` outside the adjacency
list of the current position is rejected. -/
theorem make_move_success_iff (s : GameState) (t : Char)
    (h : s.game_over = false) :
    ∀ r : GameState × Bool × Bool, r = GameState.make_move signpost s t →
    ((r.2.1 = true ↔
      t ∈ signpost.get_neighbors s.current_position ∧
        s.isVisited t = false ∧
        next_after signpost.solution_path s.current_position = some t) ∧
    (r.2.1 = true →
      r.1.current_position = t ∧
      r.1.isVisited t = true ∧
      (if s.current_turn = Player.Human then
        r.1.human_correct_moves = s.human_correct_moves + 1
      else
        r.1.cpu_correct_moves = s.cpu_correct_moves + 1)) ∧
    (t ∉ signpost.get_neighbors s.current_position → r.2.1 = false)) := by
  intro r hr
  cases hl : s.is_legal_move signpost t with
  | true =>
    cases hc : s.is_correct_move signpost t with
    | true =>
      rw [GameState.make_move, make_move_of_succ _ _ _ _ h hl hc] at hr
      subst hr
      obtain ⟨hmem, hvis⟩ := (is_legal_move_iff s signpost t).mp hl
      refine ⟨by simp [hmem, hvis, (is_correct_move_iff s signpost t).mp hc],
        fun _ => ?_, fun hnot => absurd hmem hnot⟩
      refine ⟨?_, ?_, ?_⟩ <;>
        simp only [succUpdate, GameState.switch_turn, GameState.isVisited] <;>
        split_ifs <;> simp
    | false =>
      rw [GameState.make_move, make_move_of_fail _ _ _ _ h (Or.inr hc)] at hr
      subst hr
      have : ¬ next_after signpost.solution_path s.current_position = some t := by
        intro hn
        rw [← is_correct_move_iff s signpost t] at hn
        simp [hn] at hc
      simp [this]
  | false =>
    rw [GameState.make_move, make_move_of_fail _ _ _ _ h (Or.inl hl)] at hr
    subst hr
    have : ¬(t ∈ signpost.get_neighbors s.current_position ∧
        s.isVisited t = false) := by
      intro hn
      rw [← is_legal_move_iff s signpost t] at hn
      simp [hn] at hl
    constructor
    · simp only [Bool.false_eq_true, false_iff]
      intro ⟨h1, h2, _⟩
      exact this ⟨h1, h2⟩
    · exact ⟨fun hco => by simp at hco, fun _ => rfl⟩

theorem make_move_success_iff_witness :
    (GameState.make_move signpost GameState.init 'K').1.current_position = 'K' ∧
    (GameState.make_move signpost GameState.init 'B').2.1 = false := by
  constructor
  · exact ((make_move_success_iff GameState.init 'K' rfl _ rfl).2.1
      (by decide)).1
  · exact (make_move_success_iff GameState.init 'B' rfl _ rfl).2.2 (by decide)

/-- C2: the illegal-count-only winner rule of the earliest variants gives
the win to the side with strictly fewer illegal moves and declares a draw
on equal illegal counts; the later (d&c) rule breaks an illegal-count tie
by the higher correct-move count and only draws when both counts are
equal; and reaching the goal stores exactly that rule's verdict. -/
theorem determine_winner_rules (s : GameState) :
    (s.human_illegal_moves < s.cpu_illegal_moves →
      s.determine_winner = Winner.Human ∧
      s.determine_winner_dnc = Winner.Human) ∧
    (s.cpu_illegal_moves < s.human_illegal_moves →
      s.determine_winner = Winner.CPU ∧
      s.determine_winner_dnc = Winner.CPU) ∧
    (s.human_illegal_moves = s.cpu_illegal_moves →
      s.determine_winner = Winner.Draw ∧
      (s.human_correct_moves > s.cpu_correct_moves →
        s.determine_winner_dnc = Winner.Human) ∧
      (s.cpu_correct_moves > s.human_correct_moves →
        s.determine_winner_dnc = Winner.CPU) ∧
      (s.human_correct_moves = s.cpu_correct_moves →
        s.determine_winner_dnc = Winner.Draw)) ∧
    (s.game_over = false →
      (GameState.make_move signpost s 'P').2.1 = true →
      (GameState.make_move signpost s 'P').1.winner =
        some ((GameState.make_move signpost s 'P').1.determine_winner)) ∧
    (s.game_over = false →
      (GameState.make_move_dnc signpost s 'P').2.1 = true →
      (GameState.make_move_dnc signpost s 'P').1.winner =
        some ((GameState.make_move_dnc signpost s 'P').1.determine_winner_dnc)) := by
  refine ⟨?_, ?_, ?_, ?_, ?_⟩
  · intro h
    constructor <;>
      simp [GameState.determine_winner, GameState.determine_winner_dnc, h]
  · intro h
    have hnl : ¬ s.human_illegal_moves < s.cpu_illegal_moves := by omega
    constructor
    · simp [GameState.determine_winner, hnl, h]
    · simp [GameState.determine_winner_dnc, hnl, h]
  · intro h
    have hnl : ¬ s.human_illegal_moves < s.cpu_illegal_moves := by omega
    have hnl2 : ¬ s.cpu_illegal_moves < s.human_illegal_moves := by omega
    refine ⟨?_, ?_, ?_, ?_⟩
    · simp [GameState.determine_winner, hnl, hnl2]
    · intro hcc
      simp [GameState.determine_winner_dnc, hnl, hnl2, hcc]
    · intro hcc
      have hng : ¬ s.human_correct_moves > s.cpu_correct_moves := by omega
      simp [GameState.determine_winner_dnc, hnl, hnl2, hng, hcc]
    · intro hcc
      have hg1 : ¬ s.human_correct_moves > s.cpu_correct_moves := by omega
      have hg2 : ¬ s.cpu_correct_moves > s.human_correct_moves := by omega
      simp [GameState.determine_winner_dnc, hnl, hnl2, hg1, hg2]
  · intro hgo hsucc
    have hl : GameState.is_legal_move s signpost 'P' = true := by
      cases hle : s.is_legal_move signpost 'P' with
      | true => rfl
      | false =>
        rw [GameState.make_move,
          make_move_of_fail _ _ _ _ hgo (Or.inl hle)] at hsucc
        simp at hsucc
    have hc : GameState.is_correct_move s signpost 'P' = true := by
      cases hce : s.is_correct_move signpost 'P' with
      | true => rfl
      | false =>
        rw [GameState.make_move,
          make_move_of_fail _ _ _ _ hgo (Or.inr hce)] at hsucc
        simp at hsucc
    rw [GameState.make_move, make_move_of_succ _ _ _ _ hgo hl hc]
    cases hturn : s.current_turn <;>
      simp [succUpdate, GameState.switch_turn, hturn,
        GameState.determine_winner]
  · intro hgo hsucc
    have hl : GameState.is_legal_move s signpost 'P' = true := by
      cases hle : s.is_legal_move signpost 'P' with
      | true => rfl
      | false =>
        rw [GameState.make_move_dnc,
          make_move_of_fail _ _ _ _ hgo (Or.inl hle)] at hsucc
        simp at hsucc
    have hc : GameState.is_correct_move s signpost 'P' = true := by
      cases hce : s.is_correct_move signpost 'P' with
      | true => rfl
      | false =>
        rw [GameState.make_move_dnc,
          make_move_of_fail _ _ _ _ hgo (Or.inr hce)] at hsucc
        simp at hsucc
    rw [GameState.make_move_dnc, make_move_of_succ _ _ _ _ hgo hl hc]
    cases hturn : s.current_turn <;>
      simp [succUpdate, GameState.switch_turn, hturn,
        GameState.determine_winner_dnc]

theorem determine_winner_rules_witness :
    GameState.init.determine_winner = Winner.Draw ∧
    GameState.init.determine_winner_dnc = Winner.Draw ∧
    ({ GameState.init with cpu_illegal_moves := 2 } :
      GameState).determine_winner = Winner.Human := by
  refine ⟨((determine_winner_rules GameState.init).2.2.1 rfl).1,
    ((determine_winner_rules GameState.init).2.2.1 rfl).2.2.2 rfl,
    ((determine_winner_rules _).1 (by decide)).1⟩

/-- C3: a rejected attempt (not both legal and correct) in a non-terminated
game increments exactly the moving side's illegal counter and switches the
turn, leaving position, all visited flags and visit orders, and both
correct-move counters unchanged. -/
theorem make_move_reject_frame (rule : GameState → Winner) (g : PuzzleGraph)
    (s : GameState) (t : Char) (h : s.game_over = false)
    (hne : ¬(s.is_legal_move g t = true ∧ s.is_correct_move g t = true)) :
    ∀ r : GameState, r = (GameState.make_move_with rule g s t).1 →
    ((if s.current_turn = Player.Human then
        r.human_illegal_moves = s.human_illegal_moves + 1 ∧
        r.cpu_illegal_moves = s.cpu_illegal_moves
      else
        r.cpu_illegal_moves = s.cpu_illegal_moves + 1 ∧
        r.human_illegal_moves = s.human_illegal_moves) ∧
    r.current_turn =
      (if s.current_turn = Player.Human then Player.CPU else Player.Human) ∧
    r.current_position = s.current_position ∧
    r.visited = s.visited ∧
    r.visit_order = s.visit_order ∧
    r.human_correct_moves = s.human_correct_moves ∧
    r.cpu_correct_moves = s.cpu_correct_moves) := by
  intro r hr
  have hf : s.is_legal_move g t = false ∨ s.is_correct_move g t = false := by
    cases hl : s.is_legal_move g t with
    | false => exact Or.inl rfl
    | true =>
      cases hc : s.is_correct_move g t with
      | false => exact Or.inr rfl
      | true => exact absurd ⟨hl, hc⟩ hne
  rw [make_move_of_fail rule g s t h hf] at hr
  subst hr
  simp only [failUpdate, GameState.switch_turn]
  split_ifs <;> simp_all

theorem make_move_reject_frame_witness :
    (GameState.make_move_with GameState.determine_winner signpost
      GameState.init 'B').1.human_illegal_moves = 1 ∧
    (GameState.make_move_with GameState.determine_winner signpost
      GameState.init 'B').1.current_position = 'A' := by
  have h := make_move_reject_frame GameState.determine_winner signpost
    GameState.init 'B' rfl (by decide) _ rfl
  have h1 := h.1
  simp only [show GameState.init.current_turn = Player.Human from rfl,
    if_pos rfl] at h1
  exact ⟨h1.1, h.2.2.1⟩

/-- C10: once the game is over, any move attempt returns `(False, False)`
and leaves the entire match state (counters, visited flags, turn, CPU
illegal history, everything) unchanged. -/
theorem make_move_game_over_noop (rule : GameState → Winner)
    (g : PuzzleGraph) (s : GameState) (t : Char) (h : s.game_over = true) :
    GameState.make_move_with rule g s t = (s, false, false) := by
  simp [GameState.make_move_with, h]

theorem make_move_game_over_noop_witness :
    GameState.make_move_with GameState.determine_winner signpost
      { GameState.init with game_over := true } 'K' =
      ({ GameState.init with game_over := true }, false, false) :=
  make_move_game_over_noop GameState.determine_winner signpost
    { GameState.init with game_over := true } 'K' rfl

/-- C6: a successful move to the goal `'P'` sets `game_over` and assigns a
winner; a successful move to any other cell leaves `game_over` false; and
in every reachable state `game_over` implies the current position is `'P'`. -/
theorem goal_ends_match :
    (∀ s t, (GameState.make_move signpost s t).2.1 = true → t = 'P' →
      (GameState.make_move signpost s t).1.game_over = true ∧
      ((GameState.make_move signpost s t).1.winner).isSome = true) ∧
    (∀ s t, (GameState.make_move signpost s t).2.1 = true → t ≠ 'P' →
      (GameState.make_move signpost s t).1.game_over = false) ∧
    (∀ s, Reachable s → s.game_over = true → s.current_position = 'P') := by
  refine ⟨?_, ?_, ?_⟩
  · intro s t hsucc ht
    obtain ⟨hgo, hl, hc⟩ := success_inv _ _ _ _ hsucc
    rw [GameState.make_move, make_move_of_succ _ _ _ _ hgo hl hc]
    obtain ⟨-, -, -, -, h5, h6, -⟩ :=
      succUpdate_fields GameState.determine_winner s t _ rfl
    rw [h5, h6]
    simp [ht]
  · intro s t hsucc ht
    obtain ⟨hgo, hl, hc⟩ := success_inv _ _ _ _ hsucc
    rw [GameState.make_move, make_move_of_succ _ _ _ _ hgo hl hc]
    obtain ⟨-, -, -, -, h5, -⟩ :=
      succUpdate_fields GameState.determine_winner s t _ rfl
    rw [h5, if_neg ht]
    exact hgo
  · intro s hs
    induction hs with
    | init => intro h; simp [GameState.init] at h
    | step s' t hs' ih =>
      intro hgo
      by_cases hgo' : s'.game_over = true
      · rw [GameState.make_move, make_move_of_game_over _ _ _ _ hgo'] at hgo ⊢
        exact ih hgo'
      · have hgo'' : s'.game_over = false := by simpa using hgo'
        cases hl : GameState.is_legal_move s' signpost t with
        | false =>
          rw [GameState.make_move,
            make_move_of_fail _ _ _ _ hgo'' (Or.inl hl)] at hgo
          obtain ⟨-, -, -, -, h5, -⟩ := failUpdate_fields s' t _ rfl
          rw [h5, hgo''] at hgo
          exact absurd hgo (by simp)
        | true =>
          cases hc : GameState.is_correct_move s' signpost t with
          | false =>
            rw [GameState.make_move,
              make_move_of_fail _ _ _ _ hgo'' (Or.inr hc)] at hgo
            obtain ⟨-, -, -, -, h5, -⟩ := failUpdate_fields s' t _ rfl
            rw [h5, hgo''] at hgo
            exact absurd hgo (by simp)
          | true =>
            rw [GameState.make_move,
              make_move_of_succ _ _ _ _ hgo'' hl hc] at hgo ⊢
            obtain ⟨-, -, -, h4, h5, -⟩ :=
              succUpdate_fields GameState.determine_winner s' t _ rfl
            rw [h4]
            rw [h5] at hgo
            by_cases ht : t = 'P'
            · exact ht
            · rw [if_neg ht, hgo''] at hgo
              exact absurd hgo (by simp)

set_option maxRecDepth 8192 in
theorem goal_ends_match_witness :
    (['K', 'F', 'H', 'G', 'E', 'B', 'L', 'D', 'C', 'I', 'J', 'M', 'N', 'O',
      'P'].foldl (fun s t => (GameState.make_move signpost s t).1)
      GameState.init).current_position = 'P' ∧
    (GameState.make_move signpost
      { GameState.init with current_position := 'O' } 'P').1.game_over = true := by
  constructor
  · exact goal_ends_match.2.2 _ (reachable_play _ _ Reachable.init) (by decide)
  · exact (goal_ends_match.1 { GameState.init with current_position := 'O' }
      'P' (by decide) rfl).1

/-- C7: a cell's visited flag, once true, stays true and its visit order
never changes; a cell that becomes visited in a move is the move's target
and receives the new visit count as its order, so the flag flips
false→true at most once and the order is assigned exactly then. -/
theorem visited_monotone (rule : GameState → Winner) (g : PuzzleGraph)
    (s : GameState) (t l : Char) :
    ∀ r : GameState, r = (GameState.make_move_with rule g s t).1 →
    ((s.isVisited l = true → r.isVisited l = true) ∧
     (s.isVisited l = true → r.visitOrder l = s.visitOrder l) ∧
     (s.isVisited l = false → r.isVisited l = true →
        l = t ∧ r.visitOrder l = some r.visit_count)) := by
  intro r hr
  by_cases hgo : s.game_over = true
  · rw [make_move_of_game_over rule g s t hgo] at hr
    subst hr
    exact ⟨fun h => h, fun _ => rfl, fun h1 h2 => by simp [h1] at h2⟩
  · have hgo' : s.game_over = false := by simpa using hgo
    by_cases hlc : s.is_legal_move g t = true ∧ s.is_correct_move g t = true
    · obtain ⟨hl, hc⟩ := hlc
      have hr' : r = (succUpdate rule s t).switch_turn := by
        rw [hr, make_move_of_succ rule g s t hgo' hl hc]
      obtain ⟨h1, h2, h3, -⟩ := succUpdate_fields rule s t r hr'
      have hvt : s.isVisited t = false := ((is_legal_move_iff s g t).mp hl).2
      refine ⟨?_, ?_, ?_⟩
      · intro h
        simp only [GameState.isVisited, h1, List.mem_cons, decide_eq_true_eq]
        simp only [GameState.isVisited, decide_eq_true_eq] at h
        exact Or.inr h
      · intro h
        have hlt : l ≠ t := by
          intro he
          rw [he] at h
          rw [h] at hvt
          exact absurd hvt (by simp)
        simp only [GameState.visitOrder, h2, List.lookup,
          beq_eq_false_iff_ne.mpr hlt]
      · intro h hv
        simp only [GameState.isVisited, h1, List.mem_cons,
          decide_eq_true_eq] at hv
        simp only [GameState.isVisited, decide_eq_false_iff_not] at h
        have hle : l = t := hv.resolve_right h
        subst hle
        refine ⟨rfl, ?_⟩
        simp only [GameState.visitOrder, h2, h3, List.lookup, beq_self_eq_true]
    · have hf : s.is_legal_move g t = false ∨ s.is_correct_move g t = false := by
        cases hle : s.is_legal_move g t with
        | false => exact Or.inl rfl
        | true =>
          cases hce : s.is_correct_move g t with
          | false => exact Or.inr rfl
          | true => exact absurd ⟨hle, hce⟩ hlc
      have hr' : r = (failUpdate s t).switch_turn := by
        rw [hr, make_move_of_fail rule g s t hgo' hf]
      obtain ⟨h1, h2, -⟩ := failUpdate_fields s t r hr'
      refine ⟨?_, ?_, ?_⟩
      · intro h
        simpa only [GameState.isVisited, h1] using h
      · intro h
        simp only [GameState.visitOrder, h2]
      · intro h hv
        simp only [GameState.isVisited, h1] at hv
        simp only [GameState.isVisited] at h
        rw [h] at hv
        exact absurd hv (by simp)

theorem visited_monotone_witness :
    (GameState.make_move_with GameState.determine_winner signpost
      GameState.init 'K').1.isVisited 'A' = true ∧
    (GameState.make_move_with GameState.determine_winner signpost
      GameState.init 'K').1.visitOrder 'K' = some 2 := by
  have hA := visited_monotone GameState.determine_winner signpost
    GameState.init 'K' 'A' _ rfl
  have hK := visited_monotone GameState.determine_winner signpost
    GameState.init 'K' 'K' _ rfl
  refine ⟨hA.1 rfl, ?_⟩
  have h2 := (hK.2.2 rfl (by decide)).2
  have hvc : (GameState.make_move_with GameState.determine_winner signpost
      GameState.init 'K').1.visit_count = 2 := by decide
  rw [h2, hvc]

/-- C8: the initial state has `'A'` visited, every successful move marks
its target visited as it becomes the current position, and hence in every
reachable state the current position is a visited cell. -/
theorem current_position_visited :
    GameState.init.isVisited 'A' = true ∧
    (∀ (rule : GameState → Winner) (g : PuzzleGraph) (s : GameState)
      (t : Char), (GameState.make_move_with rule g s t).2.1 = true →
      (GameState.make_move_with rule g s t).1.isVisited
        ((GameState.make_move_with rule g s t).1.current_position) = true) ∧
    (∀ s, Reachable s → s.isVisited s.current_position = true) := by
  have hstep : ∀ (rule : GameState → Winner) (g : PuzzleGraph)
      (s : GameState) (t : Char),
      (GameState.make_move_with rule g s t).2.1 = true →
      (GameState.make_move_with rule g s t).1.isVisited
        ((GameState.make_move_with rule g s t).1.current_position) = true := by
    intro rule g s t hsucc
    obtain ⟨hgo, hl, hc⟩ := success_inv _ _ _ _ hsucc
    have hmm : (GameState.make_move_with rule g s t).1 =
        (succUpdate rule s t).switch_turn := by
      rw [make_move_of_succ _ _ _ _ hgo hl hc]
    rw [hmm]
    obtain ⟨h1, -, -, h4, -⟩ := succUpdate_fields rule s t _ rfl
    rw [h4]
    simp only [GameState.isVisited, h1]
    simp
  refine ⟨by decide, hstep, ?_⟩
  intro s hs
  induction hs with
  | init => decide
  | step s' t hs' ih =>
    by_cases hgo : s'.game_over = true
    · have hmm : (GameState.make_move signpost s' t).1 = s' := by
        rw [GameState.make_move, make_move_of_game_over _ _ _ _ hgo]
      rw [hmm]
      exact ih
    · have hgo' : s'.game_over = false := by simpa using hgo
      by_cases hlc : GameState.is_legal_move s' signpost t = true ∧
          GameState.is_correct_move s' signpost t = true
      · exact hstep GameState.determine_winner signpost s' t
          (by rw [make_move_of_succ _ _ _ _ hgo' hlc.1 hlc.2])
      · have hf : GameState.is_legal_move s' signpost t = false ∨
            GameState.is_correct_move s' signpost t = false := by
          cases hle : GameState.is_legal_move s' signpost t with
          | false => exact Or.inl rfl
          | true =>
            cases hce : GameState.is_correct_move s' signpost t with
            | false => exact Or.inr rfl
            | true => exact absurd ⟨hle, hce⟩ hlc
        have hmm : (GameState.make_move signpost s' t).1 =
            (failUpdate s' t).switch_turn := by
          rw [GameState.make_move, make_move_of_fail _ _ _ _ hgo' hf]
        rw [hmm]
        obtain ⟨h1, -, -, h4, -⟩ := failUpdate_fields s' t _ rfl
        rw [h4]
        simp only [GameState.isVisited, h1]
        simp only [GameState.isVisited] at ih
        exact ih

theorem current_position_visited_witness :
    GameState.init.isVisited GameState.init.current_position = true :=
  current_position_visited.2.2 GameState.init Reachable.init

theorem is_legal_move_checked_ok (s : GameState) (t : Char) :
    s.is_legal_move_checked signpost t =
      pure (s.is_legal_move signpost t) := by
  unfold GameState.is_legal_move_checked GameState.is_legal_move
  by_cases hmem : t ∈ signpost.get_neighbors s.current_position
  · obtain ⟨nd, hnd⟩ := Option.isSome_iff_exists.mp (mem_neighbors_lookup hmem)
    have hln : lookupNode signpost t = pure nd := by rw [lookupNode, hnd]; rfl
    cases hv : s.isVisited t <;> simp [hmem, hln, hv]
  · simp [hmem]
    rfl

/-- C9: for every target (including labels outside the graph, revisits of
visited cells and off-path moves) the move function returns an ordinary
`(accepted, wasCorrect)` pair — the exception-explicit model never
produces an error — and an invalid attempt is scored as an illegal move,
not treated as fatal. -/
theorem make_move_total (rule : GameState → Winner) (s : GameState)
    (t : Char) :
    GameState.make_move_checked rule signpost s t =
      Except.ok (GameState.make_move_with rule signpost s t) ∧
    (s.game_over = false →
      ¬(s.is_legal_move signpost t = true ∧
        s.is_correct_move signpost t = true) →
      (GameState.make_move_with rule signpost s t).2.1 = false ∧
      (if s.current_turn = Player.Human then
        (GameState.make_move_with rule signpost s t).1.human_illegal_moves =
          s.human_illegal_moves + 1
      else
        (GameState.make_move_with rule signpost s t).1.cpu_illegal_moves =
          s.cpu_illegal_moves + 1)) := by
  constructor
  · by_cases hgo : s.game_over = true
    · rw [make_move_of_game_over _ _ _ _ hgo]
      unfold GameState.make_move_checked
      rw [if_pos hgo]
    · have hgo' : s.game_over = false := by simpa using hgo
      unfold GameState.make_move_checked
      rw [if_neg (by simp [hgo']), is_legal_move_checked_ok]
      cases hl : s.is_legal_move signpost t with
      | false =>
        rw [make_move_of_fail _ _ _ _ hgo' (Or.inl hl)]
        simp only [pure_bind, Bool.not_false, Bool.true_or, if_true]
        rfl
      | true =>
        cases hc : s.is_correct_move signpost t with
        | false =>
          rw [make_move_of_fail _ _ _ _ hgo' (Or.inr hc)]
          simp only [pure_bind, hc, Bool.not_true, Bool.not_false,
            Bool.false_or, if_true]
          rfl
        | true =>
          rw [make_move_of_succ _ _ _ _ hgo' hl hc]
          have hmem : t ∈ signpost.get_neighbors s.current_position :=
            ((is_legal_move_iff s signpost t).mp hl).1
          obtain ⟨nd, hnd⟩ :=
            Option.isSome_iff_exists.mp (mem_neighbors_lookup hmem)
          have hln : lookupNode signpost t = pure nd := by
            rw [lookupNode, hnd]; rfl
          simp only [pure_bind, hc, Bool.not_true, Bool.or_self, if_false,
            hln]
          rfl
  · intro hgo hne
    have hf : s.is_legal_move signpost t = false ∨
        s.is_correct_move signpost t = false := by
      cases hle : s.is_legal_move signpost t with
      | false => exact Or.inl rfl
      | true =>
        cases hce : s.is_correct_move signpost t with
        | false => exact Or.inr rfl
        | true => exact absurd ⟨hle, hce⟩ hne
    rw [make_move_of_fail rule signpost s t hgo hf]
    refine ⟨rfl, ?_⟩
    simp only [failUpdate, GameState.switch_turn]
    split_ifs <;> simp

theorem make_move_total_witness :
    GameState.make_move_checked GameState.determine_winner signpost
      GameState.init 'Z' =
      Except.ok (GameState.make_move_with GameState.determine_winner signpost
        GameState.init 'Z') ∧
    (GameState.make_move_with GameState.determine_winner signpost
      GameState.init 'Z').2.1 = false := by
  have h := make_move_total GameState.determine_winner GameState.init 'Z'
  exact ⟨h.1, (h.2 rfl (by decide)).1⟩


theorem lookup_isSome_mem_map {n : Char}
    (h : (signpost.nodes.lookup n).isSome = true) :
    n ∈ signpost.nodes.map Prod.fst := by
  obtain ⟨nd, hnd⟩ := Option.isSome_iff_exists.mp h
  exact List.mem_map.mpr ⟨(n, nd), lookup_mem n nd _ hnd, rfl⟩

theorem real_visited_set_decide (s : GameState) {n : Char}
    (hn : n ∈ signpost.get_neighbors s.current_position) :
    decide (n ∈ dncCPU.real_visited_set signpost s) = s.isVisited n := by
  cases hv : s.isVisited n with
  | true =>
    have hmem : n ∈ dncCPU.real_visited_set signpost s :=
      List.mem_filter.mpr ⟨lookup_isSome_mem_map (mem_neighbors_lookup hn), hv⟩
    simp [hmem]
  | false =>
    have hmem : n ∉ dncCPU.real_visited_set signpost s := by
      intro hc
      have hp := (List.mem_filter.mp hc).2
      rw [hv] at hp
      exact absurd hp (by simp)
    simp [hmem]

theorem build_candidates_eq_greedy (s : GameState) :
    dncCPU.build_candidates signpost s.current_position
      (dncCPU.real_visited_set signpost s) s.cpu_illegal_history =
    GreedyCPU.candidate_moves signpost s := by
  unfold dncCPU.build_candidates GreedyCPU.candidate_moves
  dsimp only
  have hf1 : (signpost.get_neighbors s.current_position).filter
      (fun n => !(decide (n ∈ dncCPU.real_visited_set signpost s)) &&
        !(decide ((s.current_position, n) ∈ s.cpu_illegal_history))) =
      (signpost.get_neighbors s.current_position).filter
      (fun n => !(s.isVisited n) &&
        !(decide ((s.current_position, n) ∈ s.cpu_illegal_history))) :=
    List.filter_congr (fun n hn => by rw [real_visited_set_decide s hn])
  have hf2 : (signpost.get_neighbors s.current_position).filter
      (fun n => !(decide (n ∈ dncCPU.real_visited_set signpost s))) =
      (signpost.get_neighbors s.current_position).filter
      (fun n => !(s.isVisited n)) :=
    List.filter_congr (fun n hn => by rw [real_visited_set_decide s hn])
  rw [hf1, hf2]
  by_cases hp : ((signpost.get_neighbors s.current_position).filter
      (fun n => !(s.isVisited n) &&
        !(decide ((s.current_position, n) ∈ s.cpu_illegal_history)))).isEmpty
  · simp only [hp, if_true]
  · simp only [hp, Bool.false_eq_true, if_false]

theorem distance_le_six (l : Char) :
    calculate_distance_to_goal signpost l ≤ 6 := by
  unfold calculate_distance_to_goal
  dsimp only
  rw [signpost_goal_lookup]
  cases hl : signpost.nodes.lookup l with
  | none => simp
  | some nd =>
    have hb := signpost_node_bounds (l, nd) (lookup_mem l nd _ hl)
    have h1 : nd.row ≤ 3 := hb.1
    have h2 : nd.col ≤ 3 := hb.2
    simp only [Option.getD_some]
    omega

theorem score_state_ge (pos : Char) :
    -6 ≤ dncCPU.score_state signpost pos := by
  unfold dncCPU.score_state
  split_ifs
  · omega
  · have := distance_le_six pos
    omega

theorem evaluate_best_score_ge :
    ∀ (d : Nat) (cur : Char) (vis : List Char) (hist : List (Char × Char)),
      -6 ≤ dncCPU.evaluate_best_score signpost d cur vis hist := by
  intro d
  induction d with
  | zero => intro cur vis hist; exact score_state_ge cur
  | succ d ih =>
    intro cur vis hist
    rw [dncCPU.evaluate_best_score]
    by_cases hP : cur = 'P'
    · rw [if_pos hP]
      exact score_state_ge cur
    · rw [if_neg hP]
      dsimp only
      by_cases hc : (dncCPU.build_candidates signpost cur vis hist).isEmpty = true
      · rw [if_pos hc]
        exact score_state_ge cur
      · rw [if_neg hc]
        have hfold := foldl_cases
          (fun n => dncCPU.evaluate_best_score signpost d n (n :: vis) hist)
          (fun b nxt =>
            if decide (nxt ∈ vis) = true then b
            else
              if dncCPU.evaluate_best_score signpost d nxt (nxt :: vis) hist > b
              then dncCPU.evaluate_best_score signpost d nxt (nxt :: vis) hist
              else b)
          (by
            intro b n
            dsimp only
            split_ifs with h1 h2
            · exact Or.inl rfl
            · exact Or.inr rfl
            · exact Or.inl rfl)
          (dncCPU.build_candidates signpost cur vis hist)
          (-(1000000000 : Int))
        split_ifs with hb
        · exact score_state_ge cur
        · rcases hfold with he | ⟨n, hn, he⟩
          · exact absurd he hb
          · rw [he]
            exact ih n (n :: vis) hist

theorem isEmpty_false_of_ne {l : List Char} (h : l ≠ []) :
    l.isEmpty = false := by
  cases l with
  | nil => exact absurd rfl h
  | cons a l => rfl

/-- C5: the greedy CPU returns the first minimal-Manhattan-distance
candidate among unvisited neighbours whose (from, to) pair is not in the
CPU's illegal-move memory; failing that, among all unvisited neighbours,
then among all neighbours; it answers `none` (modelling the uniformly
random fallback) only when there are no neighbours at all; and whenever
some unvisited neighbour exists it never selects a visited cell. -/
theorem greedy_best_move_spec (s : GameState) :
    ∀ neighbors primary fallback : List Char,
    neighbors = signpost.get_neighbors s.current_position →
    primary = neighbors.filter (fun n => !(s.isVisited n) &&
      !(decide ((s.current_position, n) ∈ s.cpu_illegal_history))) →
    fallback = neighbors.filter (fun n => !(s.isVisited n)) →
    ((primary ≠ [] →
      GreedyCPU.get_best_move signpost s =
        first_min_by (calculate_distance_to_goal signpost) primary) ∧
     (primary = [] → fallback ≠ [] →
      GreedyCPU.get_best_move signpost s =
        first_min_by (calculate_distance_to_goal signpost) fallback) ∧
     (fallback = [] → neighbors ≠ [] →
      GreedyCPU.get_best_move signpost s =
        first_min_by (calculate_distance_to_goal signpost) neighbors) ∧
     (neighbors = [] → GreedyCPU.get_best_move signpost s = none) ∧
     ((∃ n ∈ neighbors, s.isVisited n = false) →
      ∀ m, GreedyCPU.get_best_move signpost s = some m →
        s.isVisited m = false)) := by
  intro neighbors primary fallback hn hp hf
  subst hn
  subst hp
  subst hf
  refine ⟨?_, ?_, ?_, ?_, ?_⟩
  · intro hne
    have hpe := isEmpty_false_of_ne hne
    unfold GreedyCPU.get_best_move GreedyCPU.candidate_moves
    dsimp only
    simp only [hpe, Bool.false_eq_true, if_false, argmin_by_first_min]
  · intro hp0 hfne
    have hfe := isEmpty_false_of_ne hfne
    unfold GreedyCPU.get_best_move GreedyCPU.candidate_moves
    dsimp only
    simp only [hp0, List.isEmpty_nil, if_true, hfe, Bool.false_eq_true,
      if_false, argmin_by_first_min]
  · intro hf0 hnne
    have hprim : (signpost.get_neighbors s.current_position).filter
        (fun n => !(s.isVisited n) &&
          !(decide ((s.current_position, n) ∈ s.cpu_illegal_history))) = [] := by
      rw [List.filter_eq_nil_iff]
      intro a ha
      have hva : s.isVisited a = true := by
        by_contra hva
        have hvf : s.isVisited a = false := by
          cases hvv : s.isVisited a with
          | true => exact absurd hvv hva
          | false => rfl
        have : a ∈ (signpost.get_neighbors s.current_position).filter
            (fun n => !(s.isVisited n)) :=
          List.mem_filter.mpr ⟨ha, by simp [hvf]⟩
        rw [hf0] at this
        exact absurd this (List.not_mem_nil a)
      simp [hva]
    have hne := isEmpty_false_of_ne hnne
    unfold GreedyCPU.get_best_move GreedyCPU.candidate_moves
    dsimp only
    simp only [hprim, hf0, List.isEmpty_nil, if_true, hne,
      Bool.false_eq_true, if_false, argmin_by_first_min]
  · intro hn0
    unfold GreedyCPU.get_best_move GreedyCPU.candidate_moves
    dsimp only
    simp only [hn0, List.filter_nil, List.isEmpty_nil, if_true]
  · rintro ⟨n0, hn0, hv0⟩ m hm
    have hfne : (signpost.get_neighbors s.current_position).filter
        (fun n => !(s.isVisited n)) ≠ [] := by
      intro hc
      have : n0 ∈ (signpost.get_neighbors s.current_position).filter
          (fun n => !(s.isVisited n)) :=
        List.mem_filter.mpr ⟨hn0, by simp [hv0]⟩
      rw [hc] at this
      exact absurd this (List.not_mem_nil n0)
    by_cases hpe : ((signpost.get_neighbors s.current_position).filter
        (fun n => !(s.isVisited n) &&
          !(decide ((s.current_position, n) ∈ s.cpu_illegal_history)))).isEmpty = true
    · have hp0 : (signpost.get_neighbors s.current_position).filter
          (fun n => !(s.isVisited n) &&
            !(decide ((s.current_position, n) ∈ s.cpu_illegal_history))) = [] :=
        List.isEmpty_iff.mp hpe
      have hfe := isEmpty_false_of_ne hfne
      unfold GreedyCPU.get_best_move GreedyCPU.candidate_moves at hm
      dsimp only at hm
      simp only [hp0, List.isEmpty_nil, if_true, hfe, Bool.false_eq_true,
        if_false, argmin_by_first_min] at hm
      have hmem := first_min_by_mem _ _ _ hm
      have := (List.mem_filter.mp hmem).2
      cases hvm : s.isVisited m with
      | true => rw [hvm] at this; exact absurd this (by simp)
      | false => rfl
    · unfold GreedyCPU.get_best_move GreedyCPU.candidate_moves at hm
      dsimp only at hm
      simp only [hpe, Bool.false_eq_true, if_false,
        argmin_by_first_min] at hm
      have hmem := first_min_by_mem _ _ _ hm
      have hpred := (List.mem_filter.mp hmem).2
      have := (Bool.and_eq_true _ _).mp hpred
      cases hvm : s.isVisited m with
      | true =>
        have h1 := this.1
        rw [hvm] at h1
        exact absurd h1 (by simp)
      | false => rfl

theorem dnc_fold_spec (f : Char → Int) (P : Char → Bool) (c0 : Char)
    (rest : List Char) (hgt : -(1000000000 : Int) < f c0)
    (hP : ∀ c ∈ c0 :: rest, P c = false) :
    some (((c0 :: rest).foldl
      (fun (acc : Char × Int) move =>
        if P move = true then acc
        else if f move > acc.2 then (move, f move) else acc)
      (c0, -(1000000000 : Int))).1) = first_max_by f (c0 :: rest) := by
  have hcongr : (c0 :: rest).foldl
      (fun (acc : Char × Int) move =>
        if P move = true then acc
        else if f move > acc.2 then (move, f move) else acc)
      (c0, -(1000000000 : Int)) =
    (c0 :: rest).foldl
      (fun (acc : Char × Int) move =>
        if f move > acc.2 then (move, f move) else acc)
      (c0, -(1000000000 : Int)) :=
    foldl_congr_on _ _ _ (fun a ha b => by rw [hP a ha]; simp) _
  rw [hcongr, List.foldl_cons]
  dsimp only
  rw [if_pos hgt, foldl_pair_fst f rest c0]
  dsimp only
  rw [foldl_max_first_char f rest c0]

/-- C4: the depth-limited CPU generates candidates with exactly the greedy
variant's candidate/fallback policy, scores a position as 10000 at the
goal `'P'` and as the negated Manhattan distance otherwise, and (whenever
an unvisited neighbour exists) returns the first candidate whose
recursively evaluated best attainable score — `evaluate_best_score` at the
depth bound over the simulated visited set — is maximal. -/
theorem dnc_best_move_spec (s : GameState) (depth : Nat) :
    (dncCPU.build_candidates signpost s.current_position
        (dncCPU.real_visited_set signpost s) s.cpu_illegal_history =
      GreedyCPU.candidate_moves signpost s) ∧
    dncCPU.score_state signpost 'P' = 10000 ∧
    (∀ pos, pos ≠ 'P' →
      dncCPU.score_state signpost pos =
        -(calculate_distance_to_goal signpost pos : Int)) ∧
    ((∃ n ∈ signpost.get_neighbors s.current_position,
        s.isVisited n = false) →
      dncCPU.get_best_move signpost s depth =
        first_max_by
          (fun mv => dncCPU.evaluate_best_score signpost (depth - 1) mv
            (mv :: dncCPU.real_visited_set signpost s) s.cpu_illegal_history)
          (dncCPU.build_candidates signpost s.current_position
            (dncCPU.real_visited_set signpost s) s.cpu_illegal_history)) := by
  refine ⟨build_candidates_eq_greedy s, rfl, ?_, ?_⟩
  · intro pos hpos
    unfold dncCPU.score_state
    rw [if_neg hpos]
  · rintro ⟨n0, hn0, hv0⟩
    have hd0 : decide (n0 ∈ dncCPU.real_visited_set signpost s) = false := by
      rw [real_visited_set_decide s hn0, hv0]
    have hfb : n0 ∈ (signpost.get_neighbors s.current_position).filter
        (fun n => !(decide (n ∈ dncCPU.real_visited_set signpost s))) :=
      List.mem_filter.mpr ⟨hn0, by simp [hd0]⟩
    have hfbne : ((signpost.get_neighbors s.current_position).filter
        (fun n => !(decide (n ∈ dncCPU.real_visited_set signpost s)))) ≠ [] := by
      intro hc
      rw [hc] at hfb
      exact absurd hfb (List.not_mem_nil n0)
    have hkey : (dncCPU.build_candidates signpost s.current_position
        (dncCPU.real_visited_set signpost s) s.cpu_illegal_history ≠ []) ∧
        ∀ c ∈ dncCPU.build_candidates signpost s.current_position
          (dncCPU.real_visited_set signpost s) s.cpu_illegal_history,
          decide (c ∈ dncCPU.real_visited_set signpost s) = false := by
      unfold dncCPU.build_candidates
      dsimp only
      by_cases hpe : ((signpost.get_neighbors s.current_position).filter
          (fun n => !(decide (n ∈ dncCPU.real_visited_set signpost s)) &&
            !(decide ((s.current_position, n) ∈
              s.cpu_illegal_history)))).isEmpty = true
      · rw [if_pos hpe, if_neg (by simp [isEmpty_false_of_ne hfbne])]
        refine ⟨hfbne, ?_⟩
        intro c hc
        have hpred := (List.mem_filter.mp hc).2
        cases hd : decide (c ∈ dncCPU.real_visited_set signpost s) with
        | false => rfl
        | true => rw [hd] at hpred; exact absurd hpred (by simp)
      · rw [if_neg hpe]
        constructor
        · intro hc
          rw [hc] at hpe
          exact hpe rfl
        · intro c hc
          have hpred := (List.mem_filter.mp hc).2
          have hsplit := (Bool.and_eq_true _ _).mp hpred
          have h1 := hsplit.1
          cases hd : decide (c ∈ dncCPU.real_visited_set signpost s) with
          | false => rfl
          | true => rw [hd] at h1; exact absurd h1 (by simp)
    obtain ⟨hcne, hcall⟩ := hkey
    obtain ⟨c0, rest, hcr⟩ : ∃ c0 rest,
        dncCPU.build_candidates signpost s.current_position
          (dncCPU.real_visited_set signpost s) s.cpu_illegal_history =
          c0 :: rest := by
      cases hcc : dncCPU.build_candidates signpost s.current_position
          (dncCPU.real_visited_set signpost s) s.cpu_illegal_history with
      | nil => exact absurd hcc hcne
      | cons a l => exact ⟨a, l, rfl⟩
    unfold dncCPU.get_best_move
    dsimp only
    rw [hcr]
    dsimp only
    have hgt : -(1000000000 : Int) <
        dncCPU.evaluate_best_score signpost (depth - 1) c0
          (c0 :: dncCPU.real_visited_set signpost s) s.cpu_illegal_history := by
      have := evaluate_best_score_ge (depth - 1) c0
        (c0 :: dncCPU.real_visited_set signpost s) s.cpu_illegal_history
      omega
    have hP : ∀ c ∈ c0 :: rest,
        decide (c ∈ dncCPU.real_visited_set signpost s) = false := by
      rw [← hcr]
      exact hcall
    exact dnc_fold_spec
      (fun mv => dncCPU.evaluate_best_score signpost (depth - 1) mv
        (mv :: dncCPU.real_visited_set signpost s) s.cpu_illegal_history)
      (fun mv => decide (mv ∈ dncCPU.real_visited_set signpost s))
      c0 rest hgt hP

theorem greedy_best_move_spec_witness :
    GreedyCPU.get_best_move signpost GameState.init =
      first_min_by (calculate_distance_to_goal signpost)
        ((signpost.get_neighbors GameState.init.current_position).filter
          (fun n => !(GameState.init.isVisited n) &&
            !(decide ((GameState.init.current_position, n) ∈
              GameState.init.cpu_illegal_history)))) :=
  (greedy_best_move_spec GameState.init _ _ _ rfl rfl rfl).1 (by decide)

theorem dnc_best_move_spec_witness :
    dncCPU.get_best_move signpost GameState.init dncCPU.default_depth =
      first_max_by
        (fun mv => dncCPU.evaluate_best_score signpost
          (dncCPU.default_depth - 1) mv
          (mv :: dncCPU.real_visited_set signpost GameState.init)
          GameState.init.cpu_illegal_history)
        (dncCPU.build_candidates signpost GameState.init.current_position
          (dncCPU.real_visited_set signpost GameState.init)
          GameState.init.cpu_illegal_history) :=
  (dnc_best_move_spec GameState.init dncCPU.default_depth).2.2.2 (by decide)

end Signpost
